import Mathlib

/-!
Verification of the log-option payoff renderer (`log-option_payoff.py`).

The script builds three sample grids with `np.linspace`, evaluates a
piecewise payoff (zero / linear / natural logarithm) on them, and fixes the
plot ticks with `np.arange`.  We embed the numeric pipeline shallowly:
grids and payoff values are exact real numbers, tick lists are exact
rationals, and `np.linspace` / `np.arange` are translated from their
documented element formulas (element `i` of `linspace(a, b, n)` is
`a + i * (b - a) / div` with `div = n - 1` when the endpoint is included
and `div = n` otherwise; `arange(start, stop, step)` has
`ceil((stop - start) / step)` elements `start + i * step`).
-/

namespace LogOption

/-- The constant `e = np.e`, Euler's number. -/
noncomputable def e : ℝ := Real.exp 1

/-- `np.linspace a b n endpoint`: `n` evenly spaced samples from `a`
towards `b`, the endpoint `b` included iff the flag is true.  This is the
`generate_domain` operation of the spec. -/
noncomputable def linspace (a b : ℝ) (n : ℕ) (endpoint : Bool) : List ℝ :=
  (List.range n).map
    (fun (i : ℕ) =>
      a + (b - a) * (i : ℝ) / (if endpoint then ((n - 1 : ℕ) : ℝ) else (n : ℝ)))

/-- `x1 = np.linspace(-20, 0, 400)`: grid for the segment `f(x) = 0`. -/
noncomputable def x1 : List ℝ := linspace (-20) 0 400 true

/-- `x2 = np.linspace(0, e, 200, endpoint=False)`: grid for `f(x) = (1/e)x`. -/
noncomputable def x2 : List ℝ := linspace 0 e 200 false

/-- `x3 = np.linspace(e, 20, 300)`: grid for `f(x) = ln x`. -/
noncomputable def x3 : List ℝ := linspace e 20 300 true

/-- `np.zeros_like`: a list of zeros of the same length as the input. -/
def zeros_like (xs : List ℝ) : List ℝ := xs.map (fun _ => (0 : ℝ))

/-- The LINEAR evaluation rule `x ↦ (1/e) * x` used for `y2`. -/
noncomputable def linRule (x : ℝ) : ℝ := (1 / e) * x

/-- `y1 = np.zeros_like(x1)`. -/
noncomputable def y1 : List ℝ := zeros_like x1

/-- `y2 = (1/e) * x2` (elementwise). -/
noncomputable def y2 : List ℝ := x2.map linRule

/-- `y3 = np.log(x3)` (elementwise natural logarithm). -/
noncomputable def y3 : List ℝ := x3.map Real.log

/-- Modelled from the spec: the LOG evaluation rule of the `evaluate`
contract, "undefined (error) if x_sequence[i] ≤ 0"; the error branch is
the `none` result.  The source applies `np.log` unguarded, so the guard
itself is taken from the spec. -/
noncomputable def logRule (x : ℝ) : Option ℝ :=
  if x ≤ 0 then none else some (Real.log x)

/-- `np.arange start stop step` over exact rationals:
`ceil((stop - start)/step)` samples `start + i * step`. -/
def arange (start stop step : ℚ) : List ℚ :=
  (List.range (Int.toNat ⌈(stop - start) / step⌉)).map
    (fun (i : ℕ) => start + step * (i : ℚ))

/-- `plt.xticks(np.arange(-20, 21, 2))`. -/
def xticks : List ℚ := arange (-20) 21 2

/-- `plt.yticks(np.arange(-5, 5, 0.5))`. -/
def yticks : List ℚ := arange (-5) 5 (1 / 2)

/-! ### Basic facts about the embedding -/

theorem linspace_length (a b : ℝ) (n : ℕ) (ep : Bool) :
    (linspace a b n ep).length = n := by
  rw [linspace, List.length_map, List.length_range]

theorem linspace_getElem? (a b : ℝ) (n : ℕ) (ep : Bool) (i : ℕ) (hi : i < n) :
    (linspace a b n ep)[i]? =
      some (a + (b - a) * i / (if ep then ((n - 1 : ℕ) : ℝ) else (n : ℝ))) := by
  rw [linspace, List.getElem?_map, List.getElem?_range hi, Option.map_some']

theorem mem_linspace {a b : ℝ} {n : ℕ} {ep : Bool} {x : ℝ} :
    x ∈ linspace a b n ep ↔
      ∃ i, i < n ∧
        a + (b - a) * i / (if ep then ((n - 1 : ℕ) : ℝ) else (n : ℝ)) = x := by
  constructor
  · intro hx
    rcases List.mem_map.mp hx with ⟨i, hi, hfx⟩
    exact ⟨i, List.mem_range.mp hi, hfx⟩
  · rintro ⟨i, hi, hx⟩
    exact List.mem_map.mpr ⟨i, List.mem_range.mpr hi, hx⟩

theorem chain'_map_range {r : ℝ → ℝ → Prop} (f : ℕ → ℝ) (n : ℕ)
    (h : ∀ i, i + 1 < n → r (f i) (f (i + 1))) :
    List.Chain' r ((List.range n).map f) := by
  rw [List.chain'_map]
  cases n with
  | zero => simp
  | succ m =>
      rw [List.chain'_range_succ]
      intro i hi
      exact h i (by omega)

theorem e_gt_two : (2 : ℝ) < e := by
  have h := Real.exp_one_gt_d9
  rw [e]
  nlinarith

theorem e_lt_three : e < 3 := by
  have h := Real.exp_one_lt_d9
  rw [e]
  nlinarith

theorem e_pos : (0 : ℝ) < e := by
  have := e_gt_two
  linarith

theorem log_e : Real.log e = 1 := Real.log_exp 1

/-! ### Closed forms of the three grids and payoff sequences -/

theorem x1_eq :
    x1 = (List.range 400).map (fun (i : ℕ) => -20 + 20 * (i : ℝ) / 399) := by
  rw [x1, linspace]
  refine List.map_congr_left ?_
  intro i _
  norm_num

theorem x2_eq :
    x2 = (List.range 200).map (fun (i : ℕ) => e * (i : ℝ) / 200) := by
  rw [x2, linspace]
  refine List.map_congr_left ?_
  intro i _
  norm_num

theorem x3_eq :
    x3 = (List.range 300).map (fun (i : ℕ) => e + (20 - e) * (i : ℝ) / 299) := by
  rw [x3, linspace]
  refine List.map_congr_left ?_
  intro i _
  norm_num

theorem y1_eq : y1 = (List.range 400).map (fun (_ : ℕ) => (0 : ℝ)) := by
  rw [y1, zeros_like, x1, linspace, List.map_map]
  rfl

theorem y2_eq :
    y2 = (List.range 200).map (fun (i : ℕ) => (i : ℝ) / 200) := by
  rw [y2, x2_eq, List.map_map]
  refine List.map_congr_left ?_
  intro i _
  have he := e_pos
  simp only [Function.comp_apply, linRule]
  field_simp

theorem y3_eq :
    y3 = (List.range 300).map
      (fun (i : ℕ) => Real.log (e + (20 - e) * (i : ℝ) / 299)) := by
  rw [y3, x3_eq, List.map_map]
  rfl

/-! ### Segment bounds -/

theorem x1_mem_bounds {x : ℝ} (hx : x ∈ x1) : -20 ≤ x ∧ x ≤ 0 := by
  rw [x1_eq] at hx
  rcases List.mem_map.mp hx with ⟨i, hi, rfl⟩
  have hi399 : (i : ℝ) ≤ 399 := by
    have := List.mem_range.mp hi
    exact_mod_cast Nat.le_of_lt_succ (by omega)
  have hi0 : (0 : ℝ) ≤ (i : ℝ) := Nat.cast_nonneg i
  constructor <;> [linarith; linarith]

theorem x2_mem_bounds {x : ℝ} (hx : x ∈ x2) : 0 ≤ x ∧ x < e := by
  rw [x2_eq] at hx
  rcases List.mem_map.mp hx with ⟨i, hi, rfl⟩
  have hi200 : (i : ℝ) < 200 := by exact_mod_cast List.mem_range.mp hi
  have hi0 : (0 : ℝ) ≤ (i : ℝ) := Nat.cast_nonneg i
  have he := e_pos
  constructor
  · positivity
  · have h := mul_pos he (by linarith : (0 : ℝ) < 200 - (i : ℝ))
    nlinarith

theorem x3_mem_bounds {x : ℝ} (hx : x ∈ x3) : e ≤ x ∧ x ≤ 20 := by
  rw [x3_eq] at hx
  rcases List.mem_map.mp hx with ⟨i, hi, rfl⟩
  have hi299 : (i : ℝ) ≤ 299 := by
    have := List.mem_range.mp hi
    exact_mod_cast Nat.le_of_lt_succ (by omega)
  have hi0 : (0 : ℝ) ≤ (i : ℝ) := Nat.cast_nonneg i
  have h20 : (0 : ℝ) < 20 - e := by linarith [e_lt_three]
  constructor
  · have := mul_nonneg h20.le hi0
    linarith
  · have := mul_le_mul_of_nonneg_left hi299 h20.le
    linarith

/-! ### First and last sample values -/

theorem getLast?_map_range {α : Type} (f : ℕ → α) (n : ℕ) :
    ((List.range (n + 1)).map f).getLast? = some (f n) := by
  rw [List.range_succ, List.map_append]
  simp

theorem head?_map_range {α : Type} (f : ℕ → α) (n : ℕ) :
    ((List.range (n + 1)).map f).head? = some (f 0) := by
  rw [List.range_succ_eq_map]
  rfl

theorem x1_getLast? : x1.getLast? = some 0 := by
  rw [x1_eq, show (400 : ℕ) = 399 + 1 from rfl, getLast?_map_range]
  norm_num

theorem x2_head? : x2.head? = some 0 := by
  rw [x2_eq, show (200 : ℕ) = 199 + 1 from rfl, head?_map_range]
  norm_num

theorem x3_head? : x3.head? = some e := by
  rw [x3_eq, show (300 : ℕ) = 299 + 1 from rfl, head?_map_range]
  norm_num

theorem y1_getLast? : y1.getLast? = some 0 := by
  rw [y1_eq, show (400 : ℕ) = 399 + 1 from rfl, getLast?_map_range]

theorem y2_head? : y2.head? = some 0 := by
  rw [y2_eq, show (200 : ℕ) = 199 + 1 from rfl, head?_map_range]
  norm_num

theorem y2_getLast? : y2.getLast? = some (199 / 200) := by
  rw [y2_eq, show (200 : ℕ) = 199 + 1 from rfl, getLast?_map_range]
  norm_num

theorem y3_head? : y3.head? = some 1 := by
  rw [y3_eq, show (300 : ℕ) = 299 + 1 from rfl, head?_map_range]
  norm_num [log_e]

theorem x1_length : x1.length = 400 := linspace_length _ _ _ _

theorem x2_length : x2.length = 200 := linspace_length _ _ _ _

theorem x3_length : x3.length = 300 := linspace_length _ _ _ _

/-! ### Monotonicity of the payoff sequences -/

theorem y1_chain_le : List.Chain' (fun u v => u ≤ v) y1 := by
  rw [y1_eq]
  apply chain'_map_range
  intro i _
  exact le_refl 0

theorem y2_chain_lt : List.Chain' (fun u v => u < v) y2 := by
  rw [y2_eq]
  apply chain'_map_range
  intro i _
  push_cast
  linarith

theorem y3_chain_lt : List.Chain' (fun u v => u < v) y3 := by
  rw [y3_eq]
  apply chain'_map_range
  intro i _
  have h20 : (0 : ℝ) < 20 - e := by linarith [e_lt_three]
  have hi0 : (0 : ℝ) ≤ (i : ℝ) := Nat.cast_nonneg i
  have hp : (0 : ℝ) < e + (20 - e) * (i : ℝ) / 299 := by
    have := mul_nonneg h20.le hi0
    linarith [e_pos]
  apply Real.log_lt_log hp
  push_cast
  linarith

/-! ### Generic spacing and monotonicity of `linspace` -/

theorem linspace_chain_step (a b : ℝ) (n : ℕ) (ep : Bool) :
    List.Chain' (fun u v =>
        v = u + (b - a) / (if ep then ((n - 1 : ℕ) : ℝ) else (n : ℝ)))
      (linspace a b n ep) := by
  rw [linspace]
  apply chain'_map_range
  intro i _
  generalize (if ep then ((n - 1 : ℕ) : ℝ) else (n : ℝ)) = d
  push_cast
  rcases eq_or_ne d 0 with hd | hd
  · rw [hd]
    simp
  · field_simp
    ring

theorem linspace_chain_le (a b : ℝ) (n : ℕ) (ep : Bool) (hab : a ≤ b) :
    List.Chain' (fun u v => u ≤ v) (linspace a b n ep) := by
  rw [linspace]
  apply chain'_map_range
  intro i _
  have hd : (0 : ℝ) ≤ (if ep then ((n - 1 : ℕ) : ℝ) else (n : ℝ)) := by
    split <;> exact Nat.cast_nonneg _
  revert hd
  generalize (if ep then ((n - 1 : ℕ) : ℝ) else (n : ℝ)) = d
  intro hd
  rcases eq_or_lt_of_le hd with hd0 | hd0
  · rw [← hd0]
    simp
  · push_cast
    have h1 : (b - a) * (i : ℝ) ≤ (b - a) * ((i : ℝ) + 1) :=
      mul_le_mul_of_nonneg_left (by linarith) (by linarith)
    have h2 := (div_le_div_iff_of_pos_right hd0).mpr h1
    linarith

/-! ### Bounds on the logarithm values -/

theorem log20_lt_three : Real.log 20 < 3 := by
  rw [Real.log_lt_iff_lt_exp (by norm_num)]
  have h1 : (2.7182818283 : ℝ) ^ (3 : ℕ) < Real.exp 1 ^ (3 : ℕ) := by
    apply pow_lt_pow_left₀ Real.exp_one_gt_d9 (by norm_num)
    norm_num
  have h2 : Real.exp 1 ^ (3 : ℕ) = Real.exp 3 := by
    rw [Real.exp_one_pow]
    norm_num
  nlinarith

theorem one_le_log20 : (1 : ℝ) ≤ Real.log 20 := by
  have h : Real.log e ≤ Real.log 20 :=
    Real.log_le_log e_pos (by linarith [e_lt_three])
  rw [log_e] at h
  exact h

theorem e_mem_x3 : e ∈ x3 := by
  rw [x3_eq]
  exact List.mem_map.mpr ⟨0, List.mem_range.mpr (by norm_num), by norm_num⟩

/-! ### Claims -/

/-- Claim C1: every evaluated payoff sequence has the length of its grid;
on segment 1 every evaluated value is 0; on segment 2 the evaluation is
elementwise `x / e`, every value is non-negative and the sequence is
strictly increasing; on segment 3 the evaluation is elementwise `ln x`
and the sequence is strictly increasing. -/
theorem claim_C1 :
    y1.length = x1.length ∧ (∀ y ∈ y1, y = 0) ∧
    y2.length = x2.length ∧ y2 = x2.map (fun x => x / e) ∧
    (∀ y ∈ y2, 0 ≤ y) ∧ List.Chain' (fun u v => u < v) y2 ∧
    y3.length = x3.length ∧ y3 = x3.map Real.log ∧
    List.Chain' (fun u v => u < v) y3 := by
  refine ⟨?_, ?_, ?_, ?_, ?_, y2_chain_lt, ?_, rfl, y3_chain_lt⟩
  · rw [y1, zeros_like, List.length_map]
  · intro y hy
    rw [y1, zeros_like] at hy
    rcases List.mem_map.mp hy with ⟨_, _, h⟩
    exact h.symm
  · rw [y2, List.length_map]
  · rw [y2]
    refine List.map_congr_left ?_
    intro x _
    rw [linRule]
    ring
  · intro y hy
    rw [y2_eq] at hy
    rcases List.mem_map.mp hy with ⟨i, _, rfl⟩
    positivity
  · rw [y3, List.length_map]

/-- Claim C2 (counterexample): it is false that no x value is sampled by
more than one segment — the boundary value 0 is an element of both the
segment-1 grid (last element of `linspace (-20) 0 400`) and the segment-2
grid (first element of `linspace 0 e 200`). -/
theorem claim_C2_cex : (0 : ℝ) ∈ x1 ∧ (0 : ℝ) ∈ x2 := by
  constructor
  · rw [x1_eq]
    exact List.mem_map.mpr ⟨399, List.mem_range.mpr (by norm_num), by norm_num⟩
  · rw [x2_eq]
    exact List.mem_map.mpr ⟨0, List.mem_range.mpr (by norm_num), by norm_num⟩

/-- Claim C2 (amended): the three grids cover `[-20, 0]`, `[0, e)` and
`[e, 20]`; segment 2 excludes its right endpoint `e`, so `x = e` is
sampled only by segment 3, and segment 3 is disjoint from the other two;
the only value shared between consecutive grids is the boundary `x = 0`,
common to segments 1 and 2. -/
theorem claim_C2_amended :
    (∀ x ∈ x1, -20 ≤ x ∧ x ≤ 0) ∧ (∀ x ∈ x2, 0 ≤ x ∧ x < e) ∧
    (∀ x ∈ x3, e ≤ x ∧ x ≤ 20) ∧
    (∀ x, x ∈ x1 → x ∈ x2 → x = 0) ∧
    (∀ x ∈ x1, x ∉ x3) ∧ (∀ x ∈ x2, x ∉ x3) ∧
    e ∉ x2 ∧ e ∈ x3 := by
  refine ⟨?_, ?_, ?_, ?_, ?_, ?_, ?_, e_mem_x3⟩
  · intro x hx
    exact x1_mem_bounds hx
  · intro x hx
    exact x2_mem_bounds hx
  · intro x hx
    exact x3_mem_bounds hx
  · intro x hx1 hx2
    exact le_antisymm (x1_mem_bounds hx1).2 (x2_mem_bounds hx2).1
  · intro x hx1 hx3
    have h1 := (x1_mem_bounds hx1).2
    have h3 := (x3_mem_bounds hx3).1
    linarith [e_pos]
  · intro x hx2 hx3
    have h2 := (x2_mem_bounds hx2).2
    have h3 := (x3_mem_bounds hx3).1
    linarith
  · intro he
    exact absurd (x2_mem_bounds he).2 (lt_irrefl e)

/-- Claim C3: the LOG rule errors exactly on inputs `≤ 0`, but every
element of the grid it is applied to (`x3`) satisfies `e ≤ x`, hence
`0 < x`, so on those inputs the rule never takes its error branch and
returns the natural logarithm. -/
theorem claim_C3 (x : ℝ) (hx : x ∈ x3) :
    e ≤ x ∧ 0 < x ∧ logRule x = some (Real.log x) := by
  have h := (x3_mem_bounds hx).1
  have hxpos : 0 < x := lt_of_lt_of_le e_pos h
  exact ⟨h, hxpos, by rw [logRule, if_neg (not_le.mpr hxpos)]⟩

/-- Witness for C3 at the concrete grid element `x = e`. -/
theorem claim_C3_witness :
    e ∈ x3 ∧ (e ≤ e ∧ 0 < e ∧ logRule e = some (Real.log e)) :=
  ⟨e_mem_x3, claim_C3 e e_mem_x3⟩

/-- Claim C4: continuity at the boundary `x = e` — the linear rule at `e`
gives 1 (also as the one-sided limit from the left), the first value of
the log segment is 1, and the two agree exactly, hence within the
floating-point tolerance `1e-9`. -/
theorem claim_C4 :
    linRule e = 1 ∧ Real.log e = 1 ∧ y3.head? = some 1 ∧
    |linRule e - Real.log e| ≤ 1e-9 ∧
    Filter.Tendsto linRule (nhdsWithin e (Set.Iio e)) (nhds 1) := by
  have h1 : linRule e = 1 := by
    rw [linRule]
    rw [one_div, inv_mul_cancel₀ (ne_of_gt e_pos)]
  refine ⟨h1, log_e, y3_head?, ?_, ?_⟩
  · rw [h1, log_e]
    norm_num
  · have hc : Continuous linRule := by
      have : Continuous fun x : ℝ => (1 / e) * x := continuous_const.mul continuous_id
      exact this
    have ht := hc.tendsto e
    rw [h1] at ht
    exact ht.mono_left nhdsWithin_le_nhds

/-- Claim C5: for a positive sample count and an interval with `a ≤ b`,
domain generation returns exactly `sample_count` values, the first equals
`a` exactly, consecutive values differ by the constant step
`(b - a) / div` (even spacing, with `div = n - 1` when the endpoint is
included and `div = n` otherwise), and the sequence is non-decreasing. -/
theorem claim_C5 (a b : ℝ) (n : ℕ) (ep : Bool) (hn : 0 < n) (hab : a ≤ b) :
    (linspace a b n ep).length = n ∧
    (linspace a b n ep)[0]? = some a ∧
    List.Chain' (fun u v =>
        v = u + (b - a) / (if ep then ((n - 1 : ℕ) : ℝ) else (n : ℝ)))
      (linspace a b n ep) ∧
    List.Chain' (fun u v => u ≤ v) (linspace a b n ep) := by
  refine ⟨linspace_length a b n ep, ?_,
    linspace_chain_step a b n ep, linspace_chain_le a b n ep hab⟩
  rw [linspace_getElem? a b n ep 0 hn]
  norm_num

/-- Witness for C5 on the concrete call `linspace 0 1 2`, endpoint
included. -/
theorem claim_C5_witness :
    0 < 2 ∧ (0 : ℝ) ≤ 1 ∧
    ((linspace 0 1 2 true).length = 2 ∧
      (linspace 0 1 2 true)[0]? = some 0 ∧
      List.Chain' (fun u v =>
          v = u + ((1 : ℝ) - 0) / (if true then ((2 - 1 : ℕ) : ℝ) else ((2 : ℕ) : ℝ)))
        (linspace 0 1 2 true) ∧
      List.Chain' (fun u v => u ≤ v) (linspace 0 1 2 true)) :=
  ⟨by norm_num, by norm_num, claim_C5 0 1 2 true (by norm_num) (by norm_num)⟩

/-- Claim C6: the segment-2 pipeline end to end — the grid over `[0, e)`
with 200 samples starts at 0, and the LINEAR evaluation has first value 0
and last value `199 / 200 = 0.995` exactly. -/
theorem claim_C6 :
    x2.head? = some 0 ∧ y2.head? = some 0 ∧ y2.length = 200 ∧
    y2.getLast? = some (199 / 200) ∧ (199 / 200 : ℝ) = 0.995 := by
  refine ⟨x2_head?, y2_head?, ?_, y2_getLast?, by norm_num⟩
  rw [y2, List.length_map, x2_length]

/-- Claim C7: domain generation is deterministic — equal arguments give
equal sequences; the embedding is a pure function of its arguments. -/
theorem claim_C7 (a b a2 b2 : ℝ) (n n2 : ℕ) (ep ep2 : Bool)
    (ha : a = a2) (hb : b = b2) (hn : n = n2) (hep : ep = ep2) :
    linspace a b n ep = linspace a2 b2 n2 ep2 := by
  rw [ha, hb, hn, hep]

/-- Witness for C7 at the concrete call `linspace 0 1 5`, endpoint
included. -/
theorem claim_C7_witness :
    (0 : ℝ) = 0 ∧ (1 : ℝ) = 1 ∧ (5 : ℕ) = 5 ∧ true = true ∧
    linspace 0 1 5 true = linspace 0 1 5 true :=
  ⟨rfl, rfl, rfl, rfl, claim_C7 0 1 0 1 5 5 true true rfl rfl rfl rfl⟩

/-- Claim C8: the tick configuration — x ticks are exactly every 2 units
from −20 to 20, and y ticks are exactly every 0.5 units from −5 up to but
not including 5, ending at 4.5. -/
theorem claim_C8 :
    xticks = [-20, -18, -16, -14, -12, -10, -8, -6, -4, -2, 0,
              2, 4, 6, 8, 10, 12, 14, 16, 18, 20] ∧
    yticks = [-5, -4.5, -4, -3.5, -3, -2.5, -2, -1.5, -1, -0.5, 0,
              0.5, 1, 1.5, 2, 2.5, 3, 3.5, 4, 4.5] ∧
    (5 : ℚ) ∉ yticks ∧ yticks.getLast? = some 4.5 := by
  have hx : xticks = [-20, -18, -16, -14, -12, -10, -8, -6, -4, -2, 0,
      2, 4, 6, 8, 10, 12, 14, 16, 18, 20] := by
    have h : ⌈((21 : ℚ) - -20) / 2⌉ = 21 := by
      rw [Int.ceil_eq_iff]
      norm_num
    have hcount : Int.toNat ⌈((21 : ℚ) - -20) / 2⌉ = 21 := by
      rw [h]
      rfl
    rw [xticks, arange, hcount]
    rw [show List.range 21 =
      [0, 1, 2, 3, 4, 5, 6, 7, 8, 9, 10,
       11, 12, 13, 14, 15, 16, 17, 18, 19, 20] from rfl]
    simp only [List.map_cons, List.map_nil]
    norm_num
  have hy : yticks = [-5, -4.5, -4, -3.5, -3, -2.5, -2, -1.5, -1, -0.5, 0,
      0.5, 1, 1.5, 2, 2.5, 3, 3.5, 4, 4.5] := by
    have h : ⌈((5 : ℚ) - -5) / (1 / 2)⌉ = 20 := by
      rw [Int.ceil_eq_iff]
      norm_num
    have hcount : Int.toNat ⌈((5 : ℚ) - -5) / (1 / 2)⌉ = 20 := by
      rw [h]
      rfl
    rw [yticks, arange, hcount]
    rw [show List.range 20 =
      [0, 1, 2, 3, 4, 5, 6, 7, 8, 9, 10,
       11, 12, 13, 14, 15, 16, 17, 18, 19] from rfl]
    simp only [List.map_cons, List.map_nil]
    norm_num
  refine ⟨hx, hy, ?_, ?_⟩
  · rw [hy]
    intro hmem
    norm_num at hmem
  · rw [hy]
    norm_num

/-- Claim C9: the boundary `x = 0` is sampled twice — as the last element
of the segment-1 grid and the first element of the segment-2 grid — and
both evaluation rules give the value 0 there, so the duplicated point is
value-consistent. -/
theorem claim_C9 :
    x1.length = 400 ∧ x1.getLast? = some 0 ∧ x2.head? = some 0 ∧
    y1.getLast? = some 0 ∧ y2.head? = some 0 :=
  ⟨x1_length, x1_getLast?, x2_head?, y1_getLast?, y2_head?⟩

theorem y1_mem {y : ℝ} (hy : y ∈ y1) : y = 0 := by
  rw [y1_eq] at hy
  rcases List.mem_map.mp hy with ⟨_, _, h⟩
  exact h.symm

theorem y2_mem_bounds {y : ℝ} (hy : y ∈ y2) : 0 ≤ y ∧ y ≤ 199 / 200 := by
  rw [y2_eq] at hy
  rcases List.mem_map.mp hy with ⟨i, hi, rfl⟩
  have hi199 : (i : ℝ) ≤ 199 := by
    have := List.mem_range.mp hi
    exact_mod_cast Nat.le_of_lt_succ (by omega)
  constructor
  · positivity
  · linarith

theorem y3_mem_bounds {y : ℝ} (hy : y ∈ y3) : 0 ≤ y ∧ y ≤ Real.log 20 := by
  rw [y3] at hy
  rcases List.mem_map.mp hy with ⟨x, hx, rfl⟩
  have hb := x3_mem_bounds hx
  have hx1 : (1 : ℝ) ≤ x := by linarith [e_gt_two]
  exact ⟨Real.log_nonneg hx1, Real.log_le_log (by linarith) hb.2⟩

/-- Claim C10: the concatenated payoff left to right is non-decreasing,
every value lies in `[0, log 20]` with `log 20 < 3`, so the whole curve
stays strictly inside the displayed range `(-5, 5)`. -/
theorem claim_C10 :
    List.Chain' (fun u v => u ≤ v) (y1 ++ y2 ++ y3) ∧
    (∀ y ∈ y1 ++ y2 ++ y3, 0 ≤ y ∧ y ≤ Real.log 20) ∧
    Real.log 20 < 3 ∧
    (∀ y ∈ y1 ++ y2 ++ y3, -5 < y ∧ y < 5) := by
  have hbounds : ∀ y ∈ y1 ++ y2 ++ y3, 0 ≤ y ∧ y ≤ Real.log 20 := by
    intro y hy
    rcases List.mem_append.mp hy with hy12 | hy3
    · rcases List.mem_append.mp hy12 with hy1 | hy2
      · rw [y1_mem hy1]
        exact ⟨le_refl 0, by linarith [one_le_log20]⟩
      · have h := y2_mem_bounds hy2
        exact ⟨h.1, by linarith [one_le_log20]⟩
    · exact y3_mem_bounds hy3
  have c12 : List.Chain' (fun u v => u ≤ v) (y1 ++ y2) := by
    rw [List.chain'_append]
    refine ⟨y1_chain_le, y2_chain_lt.imp (fun a b h => le_of_lt h), ?_⟩
    intro u hu v hv
    rw [y1_getLast?, Option.mem_some_iff] at hu
    rw [y2_head?, Option.mem_some_iff] at hv
    rw [← hu, ← hv]
  have cfull : List.Chain' (fun u v => u ≤ v) (y1 ++ y2 ++ y3) := by
    rw [List.chain'_append]
    refine ⟨c12, y3_chain_lt.imp (fun a b h => le_of_lt h), ?_⟩
    intro u hu v hv
    rw [List.getLast?_append, y2_getLast?,
      show (some ((199 : ℝ) / 200)).or y1.getLast? = some (199 / 200) from rfl,
      Option.mem_some_iff] at hu
    rw [y3_head?, Option.mem_some_iff] at hv
    rw [← hu, ← hv]
    norm_num
  refine ⟨cfull, hbounds, log20_lt_three, ?_⟩
  intro y hy
  have h := hbounds y hy
  constructor
  · linarith
  · linarith [log20_lt_three]
